import Mathlib

/-!
Verification of the Google Maps review scraper
(`google-reviews-scraper-pro/modules/{utils,scraper}.py`).

Shallow embedding conventions:
* Python strings are `List Char`; `str.lower()` is modelled for the ASCII
  range by `pyLower` (the inputs of interest are ASCII).
* `datetime` values are microseconds since the Unix epoch, as `Int`.
  `isoformat()` is injective on datetimes, so a returned ISO string is
  represented by the timestamp it renders; the overall return type of
  `parse_date_to_iso` is `Option Int`, with `none` standing for the empty
  string `""` and `some t` for the ISO rendering of timestamp `t`.
  Python's `datetime` range (year 1 .. 9999) and `timedelta` day bound
  (999999999 days) are modelled explicitly, since exceeding them raises
  `OverflowError`, which the source catches and turns into `""`.
* Selenium calls that can raise are modelled as `Except`-valued outcomes;
  the exception classes that the source distinguishes
  (`NoSuchElementException`, `StaleElementReferenceException`, and any
  other `WebDriverException`) become constructors of `DriverErr`.
* The float expression `min(len/150.0, 1.0) * 30` of scraper.py line 136
  is modelled in exact rational arithmetic (for every relevant count the
  IEEE double evaluation agrees with the exact value).
-/

namespace Scraper

/-! ## Text utilities (modules/utils.py) -/

/-- ASCII fragment of Python `str.lower`: map `A`..`Z` to `a`..`z`,
leave every other character unchanged. -/
def pyLower (c : Char) : Char :=
  if 65 ≤ c.toNat ∧ c.toNat ≤ 90 then Char.ofNat (c.toNat + 32) else c

/-- `str.lower()` on a whole string. -/
def lowerStr (s : List Char) : List Char := s.map pyLower

/-- Does `txt` start with `pat`?  (Helper for the substring test.) -/
def startsWithL : List Char → List Char → Bool
  | _, [] => true
  | [], _ :: _ => false
  | c :: cs, p :: ps => c == p && startsWithL cs ps

/-- Python's substring test `pat in txt`. -/
def hasSub : List Char → List Char → Bool
  | [], pat => pat.isEmpty
  | c :: cs, pat => startsWithL (c :: cs) pat || hasSub cs pat

/-- Numeric value of a run of decimal digit characters (most significant
first), as read by Python `int`. -/
def valOfDigits (l : List Char) : Nat :=
  l.foldl (fun a c => 10 * a + (c.toNat - 48)) 0

/-- The character class `\d`: an ASCII decimal digit. -/
def isDig (c : Char) : Bool := 48 ≤ c.toNat && c.toNat ≤ 57

/-- Negation of `isDig`, used to search for the first digit. -/
def notDigit (c : Char) : Bool := !isDig c

/-- Embedding of `re.search(r'\d+', s)` followed by `int(...)`: the value
of the first maximal run of decimal digits, or `none` when the string has
no digit. -/
def firstNum (l : List Char) : Option Nat :=
  match l.dropWhile notDigit with
  | [] => none
  | c :: cs => some (valOfDigits ((c :: cs).takeWhile isDig))

/-- The six relative-date units recognised by `parse_date_to_iso`
(utils.py lines 91-96), in the order the source tests them. -/
inductive TimeUnit
  | minute
  | hour
  | day
  | week
  | month
  | year
deriving DecidableEq, Repr

/-- The unit word whose presence as a substring selects the unit. -/
def unitWord : TimeUnit → List Char
  | .minute => "minute".data
  | .hour   => "hour".data
  | .day    => "day".data
  | .week   => "week".data
  | .month  => "month".data
  | .year   => "year".data

/-- Duration of one unit in microseconds; month ≈ 30 days and
year ≈ 365 days, exactly as in utils.py lines 95-96. -/
def unitMicros : TimeUnit → Nat
  | .minute => 60000000
  | .hour   => 3600000000
  | .day    => 86400000000
  | .week   => 604800000000
  | .month  => 2592000000000
  | .year   => 31536000000000

/-- The `if "minute" in ... elif "hour" in ...` cascade of utils.py
lines 91-96: the first unit whose word occurs in the (lowered) string. -/
def unitMatch (ds : List Char) : Option TimeUnit :=
  if hasSub ds (unitWord .minute) then some .minute
  else if hasSub ds (unitWord .hour) then some .hour
  else if hasSub ds (unitWord .day) then some .day
  else if hasSub ds (unitWord .week) then some .week
  else if hasSub ds (unitWord .month) then some .month
  else if hasSub ds (unitWord .year) then some .year
  else none

/-- Microseconds of `datetime.datetime.min` (0001-01-01T00:00:00) relative
to the Unix epoch: `-719162 * 86400 * 10^6`. -/
def pyMinMicros : Int := -62135596800000000

/-- Microseconds of `datetime.datetime.max` (9999-12-31T23:59:59.999999)
relative to the Unix epoch. -/
def pyMaxMicros : Int := 253402300799999999

/-- `datetime.timedelta` accepts at most this many (normalised) days. -/
def timedeltaMaxDays : Nat := 999999999

/-- Microseconds in one day. -/
def microsPerDay : Nat := 86400000000

/-- Embedding of `.replace(microsecond=0)`: clear the sub-second part of a
timestamp.  (Python's `%` and Lean's `Int` `%` both return a non-negative
remainder for a positive modulus, so this is exact also before 1970.) -/
def truncMicros (t : Int) : Int := t - t % 1000000

/-- Embedding of `parse_date_to_iso` (utils.py lines 76-100).
`now` is the value of `datetime.datetime.now(timezone.utc)` in
microseconds since the epoch; the input string is a `List Char`.
`none` models the returned empty string `""`; `some t` models the ISO
rendering of timestamp `t`.  The two `OverflowError` sources inside the
`try` block — the `timedelta` day bound and the `datetime` range — are
modelled by the explicit bound checks and yield `none`, exactly as the
source's `except` clause yields `""`. -/
def parse_date_to_iso (now : Int) (s : List Char) : Option Int :=
  if s = [] then none
  else
    let ds := lowerStr s
    if hasSub ds "ago".data then
      let num : Nat := (firstNum ds).getD 1
      match unitMatch ds with
      | none => some (truncMicros now)
      | some u =>
        let deltaMicros : Nat := num * unitMicros u
        if timedeltaMaxDays < deltaMicros / microsPerDay then none
        else
          let dt : Int := now - (deltaMicros : Int)
          if dt < pyMinMicros then none
          else if pyMaxMicros < dt then none
          else some (truncMicros dt)
    else some (truncMicros now)

/-- Hebrew code-point range `[֐-׿]` of utils.py line 25. -/
def isHebChar (c : Char) : Bool := 1424 ≤ c.toNat && c.toNat ≤ 1535

/-- Thai code-point range `[฀-๿]` of utils.py line 26. -/
def isThaiChar (c : Char) : Bool := 3584 ≤ c.toNat && c.toNat ≤ 3711

/-- Embedding of `detect_lang` (utils.py lines 29-34); `re.search` of a
character-class pattern is existence of a character in the class.  The
source's `lru_cache` memoisation is semantically invisible because the
function is pure. -/
def detect_lang (s : List Char) : String :=
  if s.any isHebChar then "he"
  else if s.any isThaiChar then "th"
  else "en"

/-! ## Element locator (modules/utils.py lines 44-73) -/

/-- Failure modes of a Selenium call, as the source distinguishes them:
the two caught classes and every other `WebDriverException`. -/
inductive DriverErr
  | noSuchElement
  | stale
  | webdriver
deriving DecidableEq, Repr

/-- Decidable equality for modelled call outcomes. -/
instance instDecEqExcept {ε α : Type} [DecidableEq ε] [DecidableEq α] :
    DecidableEq (Except ε α)
  | .ok a, .ok b =>
    if h : a = b then .isTrue (by rw [h]) else .isFalse (by simp [h])
  | .ok _, .error _ => .isFalse (by simp)
  | .error _, .ok _ => .isFalse (by simp)
  | .error e, .error f =>
    if h : e = f then .isTrue (by rw [h]) else .isFalse (by simp [h])

/-- A DOM element, modelled by the outcomes of the two extraction calls
the locator layer performs on it: `.text` and `.get_attribute(attr)`
(for the one attribute name the enclosing call asks for). -/
structure Element where
  text : Except DriverErr String
  attrVal : Except DriverErr (Option String)
deriving DecidableEq, Repr

/-- The ASCII fragment of the whitespace class of Python `str.strip`:
space and the control characters 9-13 (tab, newline, vertical tab,
form feed, carriage return). -/
def isPySpace (c : Char) : Bool := c.toNat = 32 || (9 <= c.toNat && c.toNat <= 13)

/-- Python `str.strip()` on the character list: drop whitespace from both
ends. -/
def stripChars (l : List Char) : List Char :=
  ((l.dropWhile isPySpace).reverse.dropWhile isPySpace).reverse

/-- Python `str.strip()`. -/
def pyStrip (s : String) : String := String.mk (stripChars s.data)

/-- Embedding of `try_find(el, css, all=True)` (utils.py lines 44-52):
the argument is the outcome of `el.find_elements`; `NoSuchElementException`
and `StaleElementReferenceException` are caught and become `[]`, any other
driver exception propagates. -/
def try_find_all (res : Except DriverErr (List Element)) :
    Except DriverErr (List Element) :=
  match res with
  | .ok es => .ok es
  | .error .noSuchElement => .ok []
  | .error .stale => .ok []
  | .error e => .error e

/-- Embedding of `try_find(el, css)` with `all=False`: the argument is the
outcome of `el.find_element`; a found element is wrapped in a singleton
list (`[obj] if obj else []`, and `obj` is never falsy). -/
def try_find_one (res : Except DriverErr Element) :
    Except DriverErr (List Element) :=
  match res with
  | .ok e => .ok [e]
  | .error .noSuchElement => .ok []
  | .error .stale => .ok []
  | .error e => .error e

/-- The loop body of `first_text` (utils.py lines 55-63): scan elements in
order; a stale `.text` is skipped, any other exception propagates, and the
first non-empty trimmed text is returned, else `""`. -/
def first_text_loop : List Element → Except DriverErr String
  | [] => .ok ""
  | e :: es =>
    match e.text with
    | .ok t => if pyStrip t = "" then first_text_loop es else .ok (pyStrip t)
    | .error .stale => first_text_loop es
    | .error err => .error err

/-- Embedding of `first_text` (utils.py lines 55-63): its `try_find`
call followed by the scan loop. -/
def first_text (res : Except DriverErr (List Element)) :
    Except DriverErr String :=
  match try_find_all res with
  | .ok es => first_text_loop es
  | .error err => .error err

/-- The loop body of `first_attr` (utils.py lines 65-73):
`(e.get_attribute(attr) or "").strip()`, skipping stale elements. -/
def first_attr_loop : List Element → Except DriverErr String
  | [] => .ok ""
  | e :: es =>
    match e.attrVal with
    | .ok o => if pyStrip (o.getD "") = "" then first_attr_loop es else .ok (pyStrip (o.getD ""))
    | .error .stale => first_attr_loop es
    | .error err => .error err

/-- Embedding of `first_attr` (utils.py lines 65-73). -/
def first_attr (res : Except DriverErr (List Element)) :
    Except DriverErr String :=
  match try_find_all res with
  | .ok es => first_attr_loop es
  | .error err => .error err

/-- The value a successful scan step extracts from an element:
`some (t.trim)` when `.text` succeeds with non-whitespace content,
`none` when it is empty after trimming or raises. -/
def extractText (e : Element) : Option String :=
  match e.text with
  | .ok t => if pyStrip t = "" then none else some (pyStrip t)
  | .error _ => none

/-- Attribute analogue of `extractText`. -/
def extractAttr (e : Element) : Option String :=
  match e.attrVal with
  | .ok o => if pyStrip (o.getD "") = "" then none else some (pyStrip (o.getD ""))
  | .error _ => none

/-! ## Scroll/extract loop (modules/scraper.py lines 115-150) -/

/-- A parsed review. `RawReview.from_card` lives in `modules/models.py`,
which is not among the provided sources; per the spec (§3, §4.4) the
parse yields the card's stable identifier plus free-text payload fields
(author, text, rating, date), and `company_name` is backfilled by the
loop.  The payload fields are bundled into one opaque `body` string since
no claim inspects them individually. -/
structure RawReview where
  id : String
  company_name : String
  body : String
deriving DecidableEq, Repr

/-- One rendered review card, modelled by the outcomes of the two reads
the loop performs on it (scraper.py lines 125 and 129):
`attrId` is `card.get_attribute("data-review-id")` — stale (`.error`) or
an optional attribute value — and `parseBody` is `RawReview.from_card` —
stale (`.error`) or the parsed payload.

Modelled from the spec: `RawReview.from_card` (modules/models.py is
missing from the sources); §4.4 states the parse reads the card's
identifier and payload, and raises staleness like any other card read, so
a successful parse of a card with identifier `rid` yields the record
`⟨rid, name, body⟩` once the loop backfills the company name. -/
structure Card where
  attrId : Except Unit (Option String)
  parseBody : Except Unit String
deriving DecidableEq, Repr

/-- Did `RawReview.from_card` succeed on this card? -/
def parseOk (c : Card) : Bool :=
  match c.parseBody with
  | .ok _ => true
  | .error _ => false

/-- The payload of a successfully parsed card. -/
def bodyOf (c : Card) : String :=
  match c.parseBody with
  | .ok b => b
  | .error _ => ""

/-- Progress percentage written after an insertion when `len(docs) = n`
(scraper.py lines 136-137): `60 + int(min(n / 150.0, 1.0) * 30)`,
in exact rational arithmetic. -/
def progressPct (n : Nat) : Nat :=
  60 + (⌊min ((n : ℚ) / 150) 1 * 30⌋).toNat

/-- State of the scroll/extract loop.  `docs` is the insertion-ordered
`{id → RawReview}` dict as an association list, `seen` the id set in
insertion order, `trace` the sequence of percentages written to the
progress sink, `idle` the `idle_scrolls` counter, and `passes` the number
of completed scroll passes. -/
structure ScrollState where
  docs : List (String × RawReview)
  seen : List String
  trace : List Nat
  idle : Nat
  passes : Nat
deriving DecidableEq, Repr

/-- The loop state on entry (scraper.py line 117-118):
`docs, seen = {}, set()` and `idle_scrolls = 0`. -/
def initScroll : ScrollState := ⟨[], [], [], 0, 0⟩

/-- One iteration of the `for card in cards` body (scraper.py lines
123-140), threading the `new_reviews_in_pass` counter.  The `try` block
reads the id attribute (stale → caught, state unchanged), skips falsy or
already-seen ids, parses the card (stale → caught, state unchanged), and
only then inserts into `docs` and `seen` back-to-back and writes the
progress percentage.  Runs with `job_info = None` differ only in not
recording `trace`. -/
def processCard (name : String) (acc : ScrollState × Nat) (c : Card) :
    ScrollState × Nat :=
  let s := acc.1
  match c.attrId with
  | .error _ => acc
  | .ok none => acc
  | .ok (some rid) =>
    if rid = "" then acc
    else if rid ∈ s.seen then acc
    else
      match c.parseBody with
      | .error _ => acc
      | .ok body =>
        ({ s with
            docs := s.docs ++ [(rid, ⟨rid, name, body⟩)],
            seen := s.seen ++ [rid],
            trace := s.trace ++ [progressPct (s.docs.length + 1)] },
         acc.2 + 1)

/-- The number of new reviews a pass over `cards` discovers from state
`s` (the final value of `new_reviews_in_pass`). -/
def newInPass (name : String) (cards : List Card) (s : ScrollState) : Nat :=
  (cards.foldl (processCard name) (s, 0)).2

/-- One full pass of the `while` body (scraper.py lines 121-148): process
every rendered card, then update `idle_scrolls` — increment on an idle
pass, reset to zero otherwise — and scroll (which only affects what the
next enumeration returns, modelled by the pass index). -/
def processPass (name : String) (cards : List Card) (s : ScrollState) :
    ScrollState :=
  let r := cards.foldl (processCard name) (s, 0)
  { r.1 with
      idle := if r.2 = 0 then s.idle + 1 else 0,
      passes := s.passes + 1 }

/-- The `while idle_scrolls < 5` loop (scraper.py line 120), with the
card lists returned by successive enumerations supplied by `env` (indexed
by the number of scrolls performed so far) and an explicit fuel bound
(the source loop has no intrinsic bound; every claim about it concerns
runs that do stop). -/
def scroll_and_extract (name : String) (env : Nat → List Card) :
    Nat → ScrollState → ScrollState
  | 0, s => s
  | fuel + 1, s =>
    if s.idle < 5 then
      scroll_and_extract name env fuel (processPass name (env s.passes) s)
    else s

/-- The flattened sequence of cards the loop actually processes, in
order: the concatenation of the per-pass enumerations, following the same
control flow as `scroll_and_extract`. -/
def passStream (name : String) (env : Nat → List Card) :
    Nat → ScrollState → List Card
  | 0, _ => []
  | fuel + 1, s =>
    if s.idle < 5 then
      env s.passes ++ passStream name env fuel (processPass name (env s.passes) s)
    else []

/-- Is this card incapable of contributing a new identifier from `seen`?
(Id read stale, id missing or empty, id already seen, or parse stale.) -/
def isIdleCard (seen : List String) (c : Card) : Bool :=
  match c.attrId with
  | .error _ => true
  | .ok none => true
  | .ok (some rid) => rid = "" || rid ∈ seen || !parseOk c

/-- The first card in a list that can insert a record with id `rid`:
its id attribute read succeeds with exactly `rid`, the id is non-empty,
and its parse succeeds. -/
def goodCard (rid : String) (c : Card) : Bool :=
  match c.attrId with
  | .ok (some r) => r = rid && rid ≠ "" && parseOk c
  | _ => false

/-! ## Retry supervisor (modules/scraper.py lines 75-113) -/

/-- Outcome of one attempt, from the supervisor's point of view:
the driver failed to start (`_start_driver` returned `False`); the `try`
body raised, having possibly first updated `self.company_name` (line 93);
or the body returned a result (line 104), with the discovered company
name and the extracted reviews. -/
inductive AttemptOutcome
  | driverFail
  | bodyFail (nameUpdate : Option String)
  | success (name : String) (reviews : List RawReview)
deriving DecidableEq, Repr

/-- Observable timing events of the supervisor: a `_start_driver` call
and a `time.sleep(5)` backoff. -/
inductive Ev
  | startDriver
  | sleep5
deriving DecidableEq, Repr

/-- What `scrape` returns. -/
structure ScrapeResult where
  company_name : String
  reviews : List RawReview
deriving DecidableEq, Repr

/-- Python `self.company_name or "Unknown"` (scraper.py line 113). -/
def orUnknown (s : String) : String := if s = "" then "Unknown" else s

/-- The `for attempt in range(3)` loop of `scrape` (scraper.py lines
77-113), over the list of remaining attempt indices, threading
`self.company_name` and the event trace.  A raised fault inside an
attempt is data (`AttemptOutcome`), never propagated — the function is
total, mirroring that `scrape` lets no exception escape.  Note the two
backoff sites: line 80 sleeps unconditionally when the driver fails to
start, line 109 sleeps only when `attempt < 2`. -/
def scrapeLoop (env : Nat → AttemptOutcome) :
    List Nat → String → List Ev → ScrapeResult × List Ev
  | [], name, tr => (⟨orUnknown name, []⟩, tr)
  | k :: rest, name, tr =>
    let tr' := tr ++ [Ev.startDriver]
    match env k with
    | .driverFail => scrapeLoop env rest name (tr' ++ [Ev.sleep5])
    | .bodyFail upd =>
        scrapeLoop env rest (upd.getD name)
          (if k < 2 then tr' ++ [Ev.sleep5] else tr')
    | .success nm revs => (⟨nm, revs⟩, tr')

/-- Embedding of `GoogleReviewsScraper.scrape` (scraper.py lines 75-113):
three attempts, initial `self.company_name = "Unknown Company"`. -/
def scrape (env : Nat → AttemptOutcome) : ScrapeResult × List Ev :=
  scrapeLoop env [0, 1, 2] "Unknown Company" []

/-- Is this outcome a failure (of either kind)? -/
def isFailOutcome : AttemptOutcome → Bool
  | .driverFail => true
  | .bodyFail _ => true
  | .success _ _ => false

/-- The sequence of percentages one attempt writes to the progress sink,
read off scraper.py: 15 after navigation starts (line 84), 25 when the
company-name search starts (line 214) and 40 if a selector finds the name
(line 223), 45 when the reviews-tab search starts (line 172) and 60 when
the click succeeds (line 186), then the scroll-loop writes (line 137).
`nameFound` tells whether a company-name selector matched; `clickOk`
whether the reviews tab was found (if not, the attempt aborts after 45
and nothing further is written). -/
def attemptTrace (nameFound clickOk : Bool) (name : String)
    (env : Nat → List Card) (fuel : Nat) : List Nat :=
  [15, 25] ++ (if nameFound then [40] else []) ++ [45] ++
    (if clickOk then 60 :: (scroll_and_extract name env fuel initScroll).trace
     else [])

/-! ## The progress formula -/

theorem progressPct_eq (n : Nat) : progressPct n = 60 + min (n / 5) 30 := by
  unfold progressPct
  rcases le_or_lt 150 n with h | h
  · have hle : (150 : ℚ) ≤ (n : ℚ) := by exact_mod_cast h
    have h1 : (1 : ℚ) ≤ (n : ℚ) / 150 := (one_le_div (by norm_num)).mpr hle
    have h2 : 30 ≤ n / 5 := by omega
    rw [min_eq_right h1, Nat.min_eq_right h2]
    norm_num
    rfl
  · have hle : (n : ℚ) ≤ 150 := by exact_mod_cast h.le
    have h1 : (n : ℚ) / 150 ≤ 1 := (div_le_one (by norm_num)).mpr hle
    have h5 : n / 5 ≤ 30 := by omega
    rw [min_eq_left h1, Nat.min_eq_left h5]
    have hq : (n : ℚ) / 150 * 30 = ((n : ℤ) : ℚ) / ((5 : ℕ) : ℚ) := by
      push_cast
      ring
    rw [hq, Rat.floor_intCast_div_natCast]
    push_cast
    omega

theorem progressPct_mono {n m : Nat} (h : n ≤ m) :
    progressPct n ≤ progressPct m := by
  simp only [progressPct_eq]
  omega

theorem progressPct_le_90 (n : Nat) : progressPct n ≤ 90 := by
  simp only [progressPct_eq]
  omega

theorem le_progressPct (n : Nat) : 60 ≤ progressPct n := by
  simp only [progressPct_eq]
  omega

theorem progressPct_at_cap {n : Nat} (h : 150 ≤ n) : progressPct n = 90 := by
  simp only [progressPct_eq]
  omega

/-- **C6.** During the scroll/extract phase, every insertion of a new
review writes exactly `60 + floor(min(n/150, 1) * 30)` to the progress
sink, where `n` is the found-count after the insertion; the value never
exceeds 90, and equals 90 for every `n ≥ 150`. -/
theorem c6_progress_formula :
    (∀ (name : String) (s : ScrollState) (k : Nat) (c : Card)
        (rid body : String),
        c.attrId = .ok (some rid) → rid ≠ "" → rid ∉ s.seen →
        c.parseBody = .ok body →
        (processCard name (s, k) c).1.trace
          = s.trace
            ++ [60 + (⌊min (((s.docs.length + 1 : ℕ) : ℚ) / 150) 1 * 30⌋).toNat])
    ∧ (∀ n : Nat, progressPct n ≤ 90)
    ∧ (∀ n : Nat, 150 ≤ n → progressPct n = 90) := by
  refine ⟨?_, progressPct_le_90, fun n h => progressPct_at_cap h⟩
  intro name s k c rid body hA hne hseen hP
  simp [processCard, hA, hne, hseen, hP, progressPct]

/-- A concrete card for the C6 witness. -/
def c6Card : Card := ⟨.ok (some "r1"), .ok "payload"⟩

theorem c6_progress_formula_witness :
    (processCard "Acme" (initScroll, 0) c6Card).1.trace
      = initScroll.trace
        ++ [60 + (⌊min (((initScroll.docs.length + 1 : ℕ) : ℚ) / 150) 1 * 30⌋).toNat]
    ∧ progressPct 200 = 90 :=
  ⟨c6_progress_formula.1 "Acme" initScroll 0 c6Card "r1" "payload" rfl
      (by decide) (by simp [initScroll]) rfl,
   c6_progress_formula.2.2 200 (by norm_num)⟩

/-! ## Language detection -/

theorem isHebChar_ascii {c : Char} (h : c.toNat < 128) :
    isHebChar c = false := by
  simp only [isHebChar]
  simp
  omega

theorem isThaiChar_ascii {c : Char} (h : c.toNat < 128) :
    isThaiChar c = false := by
  simp only [isThaiChar]
  simp
  omega

/-- **C9.** `detect_lang` returns `"he"` when the text contains a Hebrew
code point, otherwise `"th"` when it contains a Thai code point, and
`"en"` for *every* text containing neither — in particular for plain
ASCII, whose code points fall in neither range; Hebrew takes priority
over Thai.  (The model is a pure function of the text, as the source
function is; its `lru_cache` only memoises.) -/
theorem c9_detect_lang (s : List Char) :
    ((∃ c ∈ s, isHebChar c = true) → detect_lang s = "he")
    ∧ ((∀ c ∈ s, isHebChar c = false) → (∃ c ∈ s, isThaiChar c = true) →
        detect_lang s = "th")
    ∧ ((∀ c ∈ s, isHebChar c = false) → (∀ c ∈ s, isThaiChar c = false) →
        detect_lang s = "en")
    ∧ ((∀ c ∈ s, c.toNat < 128) → detect_lang s = "en") := by
  have hen : (∀ c ∈ s, isHebChar c = false) → (∀ c ∈ s, isThaiChar c = false) →
      detect_lang s = "en" := by
    intro hnoH hnoT
    have h1 : s.any isHebChar = false := by
      simp only [List.any_eq_false]
      intro c hc
      simp [hnoH c hc]
    have h2 : s.any isThaiChar = false := by
      simp only [List.any_eq_false]
      intro c hc
      simp [hnoT c hc]
    simp [detect_lang, h1, h2]
  refine ⟨?_, ?_, hen, ?_⟩
  · intro h
    have : s.any isHebChar = true := List.any_eq_true.mpr h
    simp [detect_lang, this]
  · intro hno h
    have h1 : s.any isHebChar = false := by
      simp only [List.any_eq_false]
      intro c hc
      simp [hno c hc]
    have h2 : s.any isThaiChar = true := List.any_eq_true.mpr h
    simp [detect_lang, h1, h2]
  · intro h
    exact hen (fun c hc => isHebChar_ascii (h c hc))
      (fun c hc => isThaiChar_ascii (h c hc))

theorem c9_detect_lang_witness :
    detect_lang "א".data = "he"
    ∧ detect_lang "สวัสดี".data = "th"
    ∧ detect_lang "привет".data = "en"
    ∧ detect_lang "hello".data = "en" :=
  ⟨(c9_detect_lang _).1 (by decide),
   (c9_detect_lang _).2.1 (by decide) (by decide),
   (c9_detect_lang _).2.2.1 (by decide) (by decide),
   (c9_detect_lang _).2.2.2 (by decide)⟩

/-! ## Date parsing: non-matching input -/

/-- **C3 counterexample.** The claim says a non-matching input such as
`"gibberish"` yields `""`.  It does not: `parse_date_to_iso` initialises
`dt = now` (utils.py line 87, `# Default to now`) and, when no pattern
matches, returns the ISO rendering of `now` with microseconds cleared —
here `some 1760000000000000`, the truncation of the sample clock
`1760000000123456` — never the empty string (`none`). -/
theorem c3_counterexample :
    parse_date_to_iso 1760000000123456 "gibberish".data = some 1760000000000000
    ∧ parse_date_to_iso 1760000000123456 "gibberish".data ≠ none := by
  exact ⟨by decide, by decide⟩

/-- **C3 (amended).** `parse_date_to_iso` returns `""` for empty input,
and for every non-empty input that matches no relative-date pattern
(no `"ago"` substring, or no recognised unit word) it returns the ISO
rendering of the current time truncated to whole seconds — the internal
`now` default — rather than the empty string; it never raises. -/
theorem c3_nonmatching_now :
    (∀ now : Int, parse_date_to_iso now [] = none)
    ∧ (∀ (now : Int) (s : List Char), s ≠ [] →
        (hasSub (lowerStr s) "ago".data = false
          ∨ unitMatch (lowerStr s) = none) →
        parse_date_to_iso now s = some (truncMicros now)) := by
  constructor
  · intro now
    rfl
  · intro now s hne h
    rcases h with h | h
    · simp [parse_date_to_iso, hne, h]
    · simp only [parse_date_to_iso, if_neg hne]
      split
      · simp [h]
      · rfl

theorem c3_nonmatching_now_witness :
    parse_date_to_iso 1760000000123456 "".data = none
    ∧ parse_date_to_iso 1760000000123456 "hello world".data
        = some (truncMicros 1760000000123456) :=
  ⟨c3_nonmatching_now.1 1760000000123456,
   c3_nonmatching_now.2 1760000000123456 _ (by decide) (Or.inl (by decide))⟩

/-! ## Date parsing: the relative pattern -/

/-- A single unit duration never trips the `timedelta` day bound. -/
theorem unit_delta_days_small (u : TimeUnit) :
    unitMicros u / microsPerDay ≤ timedeltaMaxDays := by
  cases u <;> decide

/-- **C10.** When the (lowered) input contains `"ago"` and a recognised
unit word but no decimal digit (such as `"a week ago"`), the missing
quantity defaults to 1 (utils.py line 90) and the result is the ISO
rendering of `now` minus one unit duration — not the empty string.
The two range hypotheses say `now` minus one unit stays inside the
`datetime` range, which holds for every realistic clock value. -/
theorem c10_missing_quantity (now : Int) (s : List Char) (u : TimeUnit)
    (hne : s ≠ [])
    (hago : hasSub (lowerStr s) "ago".data = true)
    (hnum : firstNum (lowerStr s) = none)
    (hu : unitMatch (lowerStr s) = some u)
    (hlo : pyMinMicros ≤ now - (unitMicros u : Int))
    (hhi : now - (unitMicros u : Int) ≤ pyMaxMicros) :
    parse_date_to_iso now s = some (truncMicros (now - (unitMicros u : Int))) := by
  simp only [parse_date_to_iso, if_neg hne, hago, if_true, hnum,
    Option.getD_none, hu, one_mul]
  rw [if_neg (not_lt.mpr (unit_delta_days_small u)),
    if_neg (not_lt.mpr hlo), if_neg (not_lt.mpr hhi)]

theorem c10_missing_quantity_witness :
    parse_date_to_iso 1760000000123456 "a week ago".data
      = some (truncMicros (1760000000123456 - (unitMicros TimeUnit.week : Int))) :=
  c10_missing_quantity 1760000000123456 _ TimeUnit.week (by decide) (by decide)
    (by decide) (by decide) (by decide) (by decide)

/-! ## Substring and digit-run lemmas -/

theorem pyLower_of_toNat_lt {c : Char} (h : c.toNat < 65) : pyLower c = c := by
  unfold pyLower
  rw [if_neg]
  omega

theorem isDig_bounds {c : Char} (h : isDig c = true) :
    48 ≤ c.toNat ∧ c.toNat ≤ 57 := by
  simpa [isDig] using h

theorem pyLower_digit {c : Char} (h : isDig c = true) : pyLower c = c :=
  pyLower_of_toNat_lt (by have := isDig_bounds h; omega)

theorem lowerStr_of_fixed {l : List Char} (h : ∀ c ∈ l, pyLower c = c) :
    lowerStr l = l := by
  unfold lowerStr
  induction l with
  | nil => rfl
  | cons c cs ih =>
    simp only [List.map_cons, h c (List.mem_cons_self c cs)]
    rw [ih (fun d hd => h d (List.mem_cons_of_mem _ hd))]

theorem startsWithL_subset {txt pat : List Char}
    (h : startsWithL txt pat = true) : ∀ c ∈ pat, c ∈ txt := by
  induction txt generalizing pat with
  | nil =>
    cases pat with
    | nil => intro c hc; cases hc
    | cons p ps => simp [startsWithL] at h
  | cons t ts ih =>
    cases pat with
    | nil => intro c hc; cases hc
    | cons p ps =>
      simp only [startsWithL, Bool.and_eq_true, beq_iff_eq] at h
      intro c hc
      rcases List.mem_cons.mp hc with rfl | hc
      · rw [List.mem_cons]
        left
        exact h.1.symm
      · exact List.mem_cons_of_mem _ (ih h.2 c hc)

theorem hasSub_subset {txt pat : List Char}
    (h : hasSub txt pat = true) : ∀ c ∈ pat, c ∈ txt := by
  induction txt with
  | nil =>
    intro c hc
    simp only [hasSub, List.isEmpty_iff] at h
    subst h
    cases hc
  | cons t ts ih =>
    intro c hc
    simp only [hasSub, Bool.or_eq_true] at h
    rcases h with h | h
    · exact startsWithL_subset h c hc
    · exact List.mem_cons_of_mem _ (ih h c hc)

theorem hasSub_append_right (l1 l2 pat : List Char)
    (h : hasSub l2 pat = true) : hasSub (l1 ++ l2) pat = true := by
  induction l1 with
  | nil => simpa using h
  | cons c cs ih =>
    simp only [List.cons_append, hasSub, Bool.or_eq_true]
    exact Or.inr ih

theorem hasSub_false_of_missing {ds rest pat : List Char} {c : Char}
    (hc : c ∈ pat) (hdig : ∀ d ∈ ds, isDig d = true)
    (hcnot : isDig c = false) (hrest : c ∉ rest) :
    hasSub (ds ++ rest) pat = false := by
  cases hS : hasSub (ds ++ rest) pat
  · rfl
  · exfalso
    have hmem := hasSub_subset hS c hc
    rcases List.mem_append.mp hmem with h | h
    · rw [hdig c h] at hcnot
      cases hcnot
    · exact hrest h

theorem takeWhile_append_all {p : Char → Bool} {l1 l2 : List Char}
    (h : ∀ c ∈ l1, p c = true) :
    (l1 ++ l2).takeWhile p = l1 ++ l2.takeWhile p := by
  induction l1 with
  | nil => simp
  | cons c cs ih =>
    have hc : p c = true := h c (List.mem_cons_self _ _)
    simp only [List.cons_append, List.takeWhile_cons, hc, if_true]
    rw [ih (fun d hd => h d (List.mem_cons_of_mem _ hd))]

theorem firstNum_digit_run {ds rest : List Char} (hne : ds ≠ [])
    (hdig : ∀ c ∈ ds, isDig c = true)
    (hrest : rest.takeWhile isDig = []) :
    firstNum (ds ++ rest) = some (valOfDigits ds) := by
  cases ds with
  | nil => cases hne rfl
  | cons d ds' =>
    have hd : isDig d = true := hdig d (List.mem_cons_self _ _)
    have hdrop : ((d :: ds') ++ rest).dropWhile notDigit = d :: (ds' ++ rest) := by
      simp [List.dropWhile_cons, notDigit, hd]
    unfold firstNum
    rw [hdrop]
    have htake : (d :: (ds' ++ rest)).takeWhile isDig = d :: ds' := by
      rw [show d :: (ds' ++ rest) = (d :: ds') ++ rest from rfl,
        takeWhile_append_all hdig, hrest, List.append_nil]
    show some (valOfDigits ((d :: (ds' ++ rest)).takeWhile isDig))
      = some (valOfDigits (d :: ds'))
    rw [htake]

/-! ## The structured phrase `<digits> <unit> ago` -/

/-- The input family the claim quantifies over: a run of digits, a space,
a unit word, a space, `"ago"`. -/
def phraseOf (ds : List Char) (u : TimeUnit) : List Char :=
  ds ++ (' ' :: (unitWord u ++ (' ' :: "ago".data)))

theorem unitTail_no_digit (u : TimeUnit) :
    (' ' :: (unitWord u ++ (' ' :: "ago".data))).takeWhile isDig = [] := by
  cases u <;> rfl

theorem lowerStr_phrase (ds : List Char)
    (hdig : ∀ c ∈ ds, isDig c = true) (u : TimeUnit) :
    lowerStr (phraseOf ds u) = phraseOf ds u := by
  unfold phraseOf lowerStr
  rw [List.map_append]
  congr 1
  · exact lowerStr_of_fixed (fun c hc => pyLower_digit (hdig c hc))
  · cases u <;> decide

theorem hasSub_ago_phrase (ds : List Char) (u : TimeUnit) :
    hasSub (phraseOf ds u) "ago".data = true := by
  unfold phraseOf
  exact hasSub_append_right _ _ _ (by cases u <;> decide)

theorem unitMatch_phrase (ds : List Char)
    (hdig : ∀ c ∈ ds, isDig c = true) (u : TimeUnit) :
    unitMatch (phraseOf ds u) = some u := by
  cases u
  case minute =>
    have h1 : hasSub (phraseOf ds .minute) (unitWord .minute) = true := by
      unfold phraseOf
      exact hasSub_append_right _ _ _ (by decide)
    simp [unitMatch, h1]
  case hour =>
    have h0 : hasSub (phraseOf ds .hour) (unitWord .minute) = false := by
      unfold phraseOf
      exact hasSub_false_of_missing (c := 'm') (by decide) hdig (by decide) (by decide)
    have h1 : hasSub (phraseOf ds .hour) (unitWord .hour) = true := by
      unfold phraseOf
      exact hasSub_append_right _ _ _ (by decide)
    simp [unitMatch, h0, h1]
  case day =>
    have h0 : hasSub (phraseOf ds .day) (unitWord .minute) = false := by
      unfold phraseOf
      exact hasSub_false_of_missing (c := 'm') (by decide) hdig (by decide) (by decide)
    have h1 : hasSub (phraseOf ds .day) (unitWord .hour) = false := by
      unfold phraseOf
      exact hasSub_false_of_missing (c := 'h') (by decide) hdig (by decide) (by decide)
    have h2 : hasSub (phraseOf ds .day) (unitWord .day) = true := by
      unfold phraseOf
      exact hasSub_append_right _ _ _ (by decide)
    simp [unitMatch, h0, h1, h2]
  case week =>
    have h0 : hasSub (phraseOf ds .week) (unitWord .minute) = false := by
      unfold phraseOf
      exact hasSub_false_of_missing (c := 'm') (by decide) hdig (by decide) (by decide)
    have h1 : hasSub (phraseOf ds .week) (unitWord .hour) = false := by
      unfold phraseOf
      exact hasSub_false_of_missing (c := 'h') (by decide) hdig (by decide) (by decide)
    have h2 : hasSub (phraseOf ds .week) (unitWord .day) = false := by
      unfold phraseOf
      exact hasSub_false_of_missing (c := 'd') (by decide) hdig (by decide) (by decide)
    have h3 : hasSub (phraseOf ds .week) (unitWord .week) = true := by
      unfold phraseOf
      exact hasSub_append_right _ _ _ (by decide)
    simp [unitMatch, h0, h1, h2, h3]
  case month =>
    have h0 : hasSub (phraseOf ds .month) (unitWord .minute) = false := by
      unfold phraseOf
      exact hasSub_false_of_missing (c := 'u') (by decide) hdig (by decide) (by decide)
    have h1 : hasSub (phraseOf ds .month) (unitWord .hour) = false := by
      unfold phraseOf
      exact hasSub_false_of_missing (c := 'u') (by decide) hdig (by decide) (by decide)
    have h2 : hasSub (phraseOf ds .month) (unitWord .day) = false := by
      unfold phraseOf
      exact hasSub_false_of_missing (c := 'd') (by decide) hdig (by decide) (by decide)
    have h3 : hasSub (phraseOf ds .month) (unitWord .week) = false := by
      unfold phraseOf
      exact hasSub_false_of_missing (c := 'w') (by decide) hdig (by decide) (by decide)
    have h4 : hasSub (phraseOf ds .month) (unitWord .month) = true := by
      unfold phraseOf
      exact hasSub_append_right _ _ _ (by decide)
    simp [unitMatch, h0, h1, h2, h3, h4]
  case year =>
    have h0 : hasSub (phraseOf ds .year) (unitWord .minute) = false := by
      unfold phraseOf
      exact hasSub_false_of_missing (c := 'm') (by decide) hdig (by decide) (by decide)
    have h1 : hasSub (phraseOf ds .year) (unitWord .hour) = false := by
      unfold phraseOf
      exact hasSub_false_of_missing (c := 'h') (by decide) hdig (by decide) (by decide)
    have h2 : hasSub (phraseOf ds .year) (unitWord .day) = false := by
      unfold phraseOf
      exact hasSub_false_of_missing (c := 'd') (by decide) hdig (by decide) (by decide)
    have h3 : hasSub (phraseOf ds .year) (unitWord .week) = false := by
      unfold phraseOf
      exact hasSub_false_of_missing (c := 'w') (by decide) hdig (by decide) (by decide)
    have h4 : hasSub (phraseOf ds .year) (unitWord .month) = false := by
      unfold phraseOf
      exact hasSub_false_of_missing (c := 'm') (by decide) hdig (by decide) (by decide)
    have h5 : hasSub (phraseOf ds .year) (unitWord .year) = true := by
      unfold phraseOf
      exact hasSub_append_right _ _ _ (by decide)
    simp [unitMatch, h0, h1, h2, h3, h4, h5]

/-- **C7 counterexample.** The claim quantifies over *every* integer, but
for `"3000 years ago"` at a 2025 clock value the computed date falls
before year 1, Python raises `OverflowError` inside the `try`, and the
function returns `""` (`none`) instead of the claimed ISO timestamp. -/
theorem c7_counterexample :
    parse_date_to_iso 1760000000123456 "3000 years ago".data = none
    ∧ parse_date_to_iso 1760000000123456 "3000 years ago".data
        ≠ some (truncMicros (1760000000123456
            - ((3000 * unitMicros TimeUnit.year : ℕ) : Int))) := by
  exact ⟨by decide, by decide⟩

/-- **C7 (amended).** For every input `<digits> <unit> ago` whose
quantity keeps the `timedelta` within Python's bound (≤ 999999999 days)
and the resulting timestamp within the `datetime` range (years 1-9999),
`parse_date_to_iso` returns the ISO rendering of `now_utc` minus
quantity × unit-duration (month = 30 days, year = 365 days), with
sub-second precision truncated to whole seconds; outside those bounds
the internal `OverflowError` is caught and `""` is returned. -/
theorem c7_relative_date (now : Int) (ds : List Char) (u : TimeUnit)
    (hne : ds ≠ []) (hdig : ∀ c ∈ ds, isDig c = true)
    (hdays : valOfDigits ds * unitMicros u / microsPerDay ≤ timedeltaMaxDays)
    (hlo : pyMinMicros ≤ now - ((valOfDigits ds * unitMicros u : ℕ) : Int))
    (hhi : now - ((valOfDigits ds * unitMicros u : ℕ) : Int) ≤ pyMaxMicros) :
    parse_date_to_iso now (phraseOf ds u)
      = some (truncMicros (now - ((valOfDigits ds * unitMicros u : ℕ) : Int))) := by
  have hpne : phraseOf ds u ≠ [] := by
    cases ds with
    | nil => cases hne rfl
    | cons d ds' => simp [phraseOf]
  have hlow : lowerStr (phraseOf ds u) = phraseOf ds u := lowerStr_phrase ds hdig u
  have hago : hasSub (phraseOf ds u) "ago".data = true := hasSub_ago_phrase ds u
  have hfn : firstNum (phraseOf ds u) = some (valOfDigits ds) := by
    unfold phraseOf
    exact firstNum_digit_run hne hdig (unitTail_no_digit u)
  have hum : unitMatch (phraseOf ds u) = some u := unitMatch_phrase ds hdig u
  simp only [parse_date_to_iso, if_neg hpne, hlow, hago, if_true, hfn,
    Option.getD_some, hum]
  rw [if_neg (not_lt.mpr hdays), if_neg (not_lt.mpr hlo),
    if_neg (not_lt.mpr hhi)]

theorem c7_relative_date_witness :
    parse_date_to_iso 1760000000123456 (phraseOf "3".data TimeUnit.week)
      = some (truncMicros (1760000000123456
          - ((valOfDigits "3".data * unitMicros TimeUnit.week : ℕ) : Int)))
    ∧ parse_date_to_iso 1760000000123456 "3 weeks ago".data
        = some (truncMicros (1760000000123456 - (1814400000000 : Int))) :=
  ⟨c7_relative_date 1760000000123456 "3".data TimeUnit.week (by decide)
      (by decide) (by decide) (by decide) (by decide),
   by decide⟩

/-! ## Locator degradation -/

/-- Is a modelled call outcome a success? -/
def isOkE {ε α : Type} : Except ε α → Bool
  | .ok _ => true
  | .error _ => false

theorem first_text_loop_spec (es : List Element)
    (h : ∀ e ∈ es, e.text = .error .stale ∨ isOkE e.text = true) :
    first_text_loop es = .ok ((es.filterMap extractText).headD "") := by
  induction es with
  | nil => rfl
  | cons e es ih =>
    have hrec := ih (fun x hx => h x (List.mem_cons_of_mem _ hx))
    cases hok : e.text with
    | error err =>
      have herr : err = .stale := by
        rcases h e (List.mem_cons_self _ _) with he | he
        · rw [hok] at he
          exact (Except.error.inj he)
        · rw [hok] at he
          simp [isOkE] at he
      subst herr
      simp [first_text_loop, hok, extractText, hrec]
    | ok t =>
      by_cases ht : pyStrip t = ""
      · simp [first_text_loop, hok, ht, extractText, hrec]
      · simp [first_text_loop, hok, ht, extractText]

theorem first_attr_loop_spec (es : List Element)
    (h : ∀ e ∈ es, e.attrVal = .error .stale ∨ isOkE e.attrVal = true) :
    first_attr_loop es = .ok ((es.filterMap extractAttr).headD "") := by
  induction es with
  | nil => rfl
  | cons e es ih =>
    have hrec := ih (fun x hx => h x (List.mem_cons_of_mem _ hx))
    cases hok : e.attrVal with
    | error err =>
      have herr : err = .stale := by
        rcases h e (List.mem_cons_self _ _) with he | he
        · rw [hok] at he
          exact (Except.error.inj he)
        · rw [hok] at he
          simp [isOkE] at he
      subst herr
      simp [first_attr_loop, hok, extractAttr, hrec]
    | ok o =>
      by_cases ht : pyStrip (o.getD "") = ""
      · simp [first_attr_loop, hok, ht, extractAttr, hrec]
      · simp [first_attr_loop, hok, ht, extractAttr]

/-- **C8 counterexample.** The claim says `try_find` returns an empty
sequence, never an error, for *every* failure mode of the underlying
driver call.  But the source catches only `NoSuchElementException` and
`StaleElementReferenceException` (utils.py line 51); any other
`WebDriverException` — a crashed session, an invalid selector —
propagates out of `try_find` instead of degrading to `[]`. -/
theorem c8_counterexample :
    try_find_all (.error .webdriver) = .error .webdriver
    ∧ try_find_all (.error .webdriver) ≠ .ok [] :=
  ⟨rfl, by decide⟩

/-- **C8 (amended).** The locator operations degrade for the two caught
failure modes: `try_find` returns the found elements, and `[]` (never an
error) when the selector matches nothing (`NoSuchElementException`) or
the scope is stale; `first_text` / `first_attr` scan the matches in
order, silently skip any match whose extraction raises staleness, return
the first non-whitespace trimmed value, and return `""` when none
qualify (in particular when the find itself failed with one of the two
caught modes).  Any other `WebDriverException` — from the find call or
from an element read — propagates. -/
theorem c8_locator_degrade :
    ((∀ es, try_find_all (.ok es) = .ok es)
      ∧ try_find_all (.error .noSuchElement) = .ok []
      ∧ try_find_all (.error .stale) = .ok []
      ∧ (∀ e, try_find_one (.ok e) = .ok [e])
      ∧ try_find_one (.error .noSuchElement) = .ok []
      ∧ try_find_one (.error .stale) = .ok [])
    ∧ (first_text (.error .noSuchElement) = .ok ""
      ∧ first_text (.error .stale) = .ok ""
      ∧ ∀ es, (∀ e ∈ es, e.text = .error .stale ∨ isOkE e.text = true) →
          first_text (.ok es) = .ok ((es.filterMap extractText).headD ""))
    ∧ (first_attr (.error .noSuchElement) = .ok ""
      ∧ first_attr (.error .stale) = .ok ""
      ∧ ∀ es, (∀ e ∈ es, e.attrVal = .error .stale ∨ isOkE e.attrVal = true) →
          first_attr (.ok es) = .ok ((es.filterMap extractAttr).headD "")) := by
  refine ⟨⟨fun es => rfl, rfl, rfl, fun e => rfl, rfl, rfl⟩,
    ⟨rfl, rfl, ?_⟩, ⟨rfl, rfl, ?_⟩⟩
  · intro es h
    simpa [first_text, try_find_all] using first_text_loop_spec es h
  · intro es h
    simpa [first_attr, try_find_all] using first_attr_loop_spec es h

/-- Concrete elements for the C8 witness: a stale one, a whitespace-only
one, and one with real content. -/
def eStaleW : Element := ⟨.error .stale, .error .stale⟩

def eBlankW : Element := ⟨.ok "  ", .ok (some "  ")⟩

def eGoodW : Element := ⟨.ok " hi ", .ok (some " v ")⟩

theorem c8_locator_degrade_witness :
    first_text (.ok [eStaleW, eBlankW, eGoodW]) = .ok "hi"
    ∧ first_attr (.ok [eStaleW, eBlankW, eGoodW]) = .ok "v" :=
  ⟨(c8_locator_degrade.2.1.2.2 [eStaleW, eBlankW, eGoodW]
      (by decide)).trans (by decide),
   (c8_locator_degrade.2.2.2.2 [eStaleW, eBlankW, eGoodW]
      (by decide)).trans (by decide)⟩

/-! ## Retry supervisor -/

/-- The number of `_start_driver` calls recorded in a trace. -/
def startsIn : List Ev → Nat
  | [] => 0
  | .startDriver :: tr => startsIn tr + 1
  | .sleep5 :: tr => startsIn tr

/-- **C2 counterexample.** The claim says the supervisor backs off
"between failed attempts ... except after the final attempt", and gives
the always-failing session constructor as its example scenario.  In that
very scenario the backoff at scraper.py line 80 is unconditional, so the
run's trace ends with a `time.sleep(5)` after the third and final
`_start_driver` call. -/
theorem c2_counterexample :
    (scrape fun _ => AttemptOutcome.driverFail).2
      = [.startDriver, .sleep5, .startDriver, .sleep5, .startDriver, .sleep5]
    ∧ (scrape fun _ => AttemptOutcome.driverFail).2.getLast? = some .sleep5 :=
  ⟨rfl, rfl⟩

/-- **C2 (amended).** `scrape` attempts the session at most 3 times and
never lets a raised fault escape (the model is a total function and every
fault is data).  A successful attempt returns its result immediately.
Between failed attempts it pauses one fixed 5-time-unit backoff; after
the *final* attempt it pauses only in the driver-start-failure path
(scraper.py line 80 is unconditional, line 109 is guarded by
`attempt < 2`).  If all 3 attempts fail — e.g. a session constructor
that always fails is called exactly 3 times — it returns an empty review
list tagged with whatever company name was discovered. -/
theorem c2_retry_supervisor :
    (∀ env, startsIn (scrape env).2 ≤ 3)
    ∧ (∀ env k nm revs, k < 3 →
        (∀ j, j < k → isFailOutcome (env j) = true) →
        env k = .success nm revs →
        (scrape env).1 = ⟨nm, revs⟩ ∧ startsIn (scrape env).2 = k + 1)
    ∧ (∀ env, (∀ k, k < 3 → isFailOutcome (env k) = true) →
        (scrape env).1.reviews = [] ∧ startsIn (scrape env).2 = 3)
    ∧ (∀ env, (∀ k, k < 3 → env k = .driverFail) →
        (scrape env).2 = [.startDriver, .sleep5, .startDriver, .sleep5,
          .startDriver, .sleep5])
    ∧ (∀ env upd, (∀ k, k < 3 → env k = .bodyFail upd) →
        (scrape env).2 = [.startDriver, .sleep5, .startDriver, .sleep5,
          .startDriver])
    ∧ (∀ env nm, env 0 = .bodyFail (some nm) → nm ≠ "" →
        (env 1 = .driverFail ∨ env 1 = .bodyFail none) →
        (env 2 = .driverFail ∨ env 2 = .bodyFail none) →
        (scrape env).1.company_name = nm) := by
  refine ⟨?_, ?_, ?_, ?_, ?_, ?_⟩
  · intro env
    rcases h0 : env 0 with _ | u0 | ⟨n0, r0⟩ <;>
      rcases h1 : env 1 with _ | u1 | ⟨n1, r1⟩ <;>
        rcases h2 : env 2 with _ | u2 | ⟨n2, r2⟩ <;>
          simp [scrape, scrapeLoop, h0, h1, h2, startsIn]
  · intro env k nm revs hk hfail hsucc
    interval_cases k
    · constructor <;> simp [scrape, scrapeLoop, hsucc, startsIn]
    · have f0 := hfail 0 (by norm_num)
      rcases h0 : env 0 with _ | u0 | ⟨n0, r0⟩ <;>
        simp_all [scrape, scrapeLoop, isFailOutcome, startsIn]
    · have f0 := hfail 0 (by norm_num)
      have f1 := hfail 1 (by norm_num)
      rcases h0 : env 0 with _ | u0 | ⟨n0, r0⟩ <;>
        rcases h1 : env 1 with _ | u1 | ⟨n1, r1⟩ <;>
          simp_all [scrape, scrapeLoop, isFailOutcome, startsIn]
  · intro env hf
    have f0 := hf 0 (by norm_num)
    have f1 := hf 1 (by norm_num)
    have f2 := hf 2 (by norm_num)
    rcases h0 : env 0 with _ | u0 | ⟨n0, r0⟩ <;>
      rcases h1 : env 1 with _ | u1 | ⟨n1, r1⟩ <;>
        rcases h2 : env 2 with _ | u2 | ⟨n2, r2⟩ <;>
          simp_all [scrape, scrapeLoop, isFailOutcome, startsIn]
  · intro env h
    have h0 := h 0 (by norm_num)
    have h1 := h 1 (by norm_num)
    have h2 := h 2 (by norm_num)
    simp [scrape, scrapeLoop, h0, h1, h2]
  · intro env upd h
    have h0 := h 0 (by norm_num)
    have h1 := h 1 (by norm_num)
    have h2 := h 2 (by norm_num)
    simp [scrape, scrapeLoop, h0, h1, h2]
  · intro env nm h0 hnm h1 h2
    rcases h1 with h1 | h1 <;> rcases h2 with h2 | h2 <;>
      simp [scrape, scrapeLoop, h0, h1, h2, orUnknown, hnm]

/-- Concrete environments for the C2 witness. -/
def envAllDriverFail : Nat → AttemptOutcome := fun _ => .driverFail

def envSecondSucceeds : Nat → AttemptOutcome := fun k =>
  if k = 1 then .success "Nm" [] else .driverFail

def envNameDiscovered : Nat → AttemptOutcome := fun k =>
  if k = 0 then .bodyFail (some "Acme") else .driverFail

theorem c2_retry_supervisor_witness :
    ((scrape envAllDriverFail).1.reviews = []
      ∧ startsIn (scrape envAllDriverFail).2 = 3)
    ∧ (scrape envSecondSucceeds).1 = ⟨"Nm", []⟩
    ∧ (scrape envNameDiscovered).1.company_name = "Acme" :=
  ⟨c2_retry_supervisor.2.2.1 envAllDriverFail (fun k _ => rfl),
   (c2_retry_supervisor.2.1 envSecondSucceeds 1 "Nm" [] (by norm_num)
      (fun j hj => by
        have hj0 : j = 0 := by omega
        subst hj0
        rfl)
      rfl).1,
   c2_retry_supervisor.2.2.2.2.2 envNameDiscovered "Acme" rfl (by decide)
      (Or.inl rfl) (Or.inl rfl)⟩

/-! ## Scroll loop: card-level lemmas -/

/-- The scroll-state invariant: `seen` is exactly the key list of the
result map, and it has no duplicates. -/
def WfScroll (s : ScrollState) : Prop :=
  s.seen = s.docs.map Prod.fst ∧ s.seen.Nodup

theorem processCard_stale (name : String) (acc : ScrollState × Nat)
    (c : Card) (h : c.attrId = .error () ∨ c.parseBody = .error ()) :
    processCard name acc c = acc := by
  rcases h with h | h
  · simp [processCard, h]
  · rcases hA : c.attrId with e | o
    · simp [processCard, hA]
    · rcases o with _ | rid
      · simp [processCard, hA]
      · simp [processCard, hA, h]

theorem processCard_insert (name : String) (s : ScrollState) (k : Nat)
    (c : Card) (rid body : String)
    (hA : c.attrId = .ok (some rid)) (hne : rid ≠ "") (hseen : rid ∉ s.seen)
    (hP : c.parseBody = .ok body) :
    processCard name (s, k) c
      = ({ s with
            docs := s.docs ++ [(rid, ⟨rid, name, body⟩)],
            seen := s.seen ++ [rid],
            trace := s.trace ++ [progressPct (s.docs.length + 1)] }, k + 1) := by
  simp [processCard, hA, hne, hseen, hP]

/-- Every card either leaves the accumulator unchanged or performs the
one insertion step. -/
theorem processCard_shape (name : String) (acc : ScrollState × Nat)
    (c : Card) :
    processCard name acc c = acc
    ∨ ∃ rid body, c.attrId = .ok (some rid) ∧ rid ≠ "" ∧ rid ∉ acc.1.seen
        ∧ c.parseBody = .ok body
        ∧ processCard name acc c
            = ({ acc.1 with
                  docs := acc.1.docs ++ [(rid, ⟨rid, name, body⟩)],
                  seen := acc.1.seen ++ [rid],
                  trace := acc.1.trace
                    ++ [progressPct (acc.1.docs.length + 1)] }, acc.2 + 1) := by
  rcases hA : c.attrId with e | o
  · exact Or.inl (by simp [processCard, hA])
  · rcases o with _ | rid
    · exact Or.inl (by simp [processCard, hA])
    · by_cases hne : rid = ""
      · exact Or.inl (by simp [processCard, hA, hne])
      · by_cases hseen : rid ∈ acc.1.seen
        · exact Or.inl (by simp [processCard, hA, hseen])
        · rcases hP : c.parseBody with e | body
          · exact Or.inl (by simp [processCard, hA, hne, hseen, hP])
          · exact Or.inr ⟨rid, body, rfl, hne, hseen, rfl,
              by simp [processCard, hA, hne, hseen, hP]⟩

theorem goodCard_iff {rid : String} {c : Card} :
    goodCard rid c = true
      ↔ ∃ body, c.attrId = .ok (some rid) ∧ rid ≠ "" ∧ c.parseBody = .ok body := by
  rcases hA : c.attrId with e | o
  · simp [goodCard, hA]
  · rcases o with _ | r
    · simp [goodCard, hA]
    · rcases hP : c.parseBody with e | b
      · simp [goodCard, hA, parseOk, hP]
      · simp only [goodCard, hA, parseOk, hP, Bool.and_true,
          Bool.and_eq_true, decide_eq_true_eq, Except.ok.injEq,
          Option.some.injEq]
        constructor
        · rintro ⟨hr, hne⟩
          exact ⟨b, hr, hne, rfl⟩
        · rintro ⟨body, hr, hne, _⟩
          exact ⟨hr, hne⟩

/-- Skipped or inserted, a card never touches `idle` or `passes`, and
only appends to `seen`. -/
theorem foldl_processCard_frame (name : String) (cs : List Card) :
    ∀ acc : ScrollState × Nat,
      (cs.foldl (processCard name) acc).1.idle = acc.1.idle
      ∧ (cs.foldl (processCard name) acc).1.passes = acc.1.passes
      ∧ (∃ t, (cs.foldl (processCard name) acc).1.seen = acc.1.seen ++ t) := by
  induction cs with
  | nil => exact fun acc => ⟨rfl, rfl, [], by simp⟩
  | cons c cs ih =>
    intro acc
    rw [List.foldl_cons]
    rcases processCard_shape name acc c with he | ⟨rid, body, _, _, _, _, he⟩
    · rw [he]
      exact ih acc
    · rw [he]
      obtain ⟨h1, h2, t, h3⟩ := ih _
      refine ⟨by rw [h1], by rw [h2], rid :: t, ?_⟩
      rw [h3]
      simp

theorem lookup_concat_ne (l : List (String × RawReview)) (rid k : String)
    (v : RawReview) (h : rid ≠ k) :
    (l ++ [(k, v)]).lookup rid = l.lookup rid := by
  induction l with
  | nil =>
    simp only [List.nil_append, List.lookup, beq_eq_false_iff_ne.mpr h]
  | cons p l ih =>
    rcases p with ⟨k', v'⟩
    by_cases hk : rid = k'
    · subst hk
      simp [List.lookup]
    · simp only [List.cons_append, List.lookup,
        beq_eq_false_iff_ne.mpr hk]
      exact ih

theorem lookup_concat_self (l : List (String × RawReview)) (rid : String)
    (v : RawReview) :
    rid ∉ l.map Prod.fst → (l ++ [(rid, v)]).lookup rid = some v := by
  induction l with
  | nil =>
    intro _
    simp [List.lookup]
  | cons p l ih =>
    intro h
    rcases p with ⟨k', v'⟩
    have hk : rid ≠ k' := fun hc => h (by simp [hc])
    have h' : rid ∉ l.map Prod.fst := fun hc => h (by simp [hc])
    simp only [List.cons_append, List.lookup,
      beq_eq_false_iff_ne.mpr hk]
    exact ih h'

theorem lookup_none_iff (l : List (String × RawReview)) (rid : String) :
    l.lookup rid = none ↔ rid ∉ l.map Prod.fst := by
  induction l with
  | nil => simp [List.lookup]
  | cons p l ih =>
    rcases p with ⟨k', v'⟩
    by_cases hk : rid = k'
    · subst hk
      simp [List.lookup]
    · simp only [List.lookup, beq_eq_false_iff_ne.mpr hk, ih,
        List.map_cons, List.mem_cons]
      constructor
      · intro hm hc
        rcases hc with hc | hc
        · exact hk hc
        · exact hm hc
      · intro hm hc
        exact hm (Or.inr hc)

theorem processCard_insert' (name : String) (acc : ScrollState × Nat)
    (c : Card) (rid body : String)
    (hA : c.attrId = .ok (some rid)) (hne : rid ≠ "")
    (hseen : rid ∉ acc.1.seen) (hP : c.parseBody = .ok body) :
    processCard name acc c
      = ({ acc.1 with
            docs := acc.1.docs ++ [(rid, ⟨rid, name, body⟩)],
            seen := acc.1.seen ++ [rid],
            trace := acc.1.trace
              ++ [progressPct (acc.1.docs.length + 1)] }, acc.2 + 1) := by
  simp [processCard, hA, hne, hseen, hP]

theorem processCard_wf (name : String) (acc : ScrollState × Nat) (c : Card)
    (h : WfScroll acc.1) : WfScroll (processCard name acc c).1 := by
  rcases processCard_shape name acc c with he | ⟨rid, body, hA, hne, hseen, hP, he⟩
  · rw [he]
    exact h
  · rw [he]
    constructor
    · simp [h.1]
    · rw [List.nodup_append]
      refine ⟨h.2, List.nodup_singleton _, ?_⟩
      intro a ha hb
      simp only [List.mem_singleton] at hb
      subst hb
      exact hseen ha

theorem foldl_processCard_wf (name : String) (cs : List Card) :
    ∀ acc : ScrollState × Nat, WfScroll acc.1 →
      WfScroll (cs.foldl (processCard name) acc).1 := by
  induction cs with
  | nil => exact fun acc h => h
  | cons c cs ih =>
    intro acc h
    rw [List.foldl_cons]
    exact ih _ (processCard_wf name acc c h)

theorem foldl_lookup_seen (name : String) (cs : List Card) :
    ∀ (acc : ScrollState × Nat) (rid : String), rid ∈ acc.1.seen →
      (cs.foldl (processCard name) acc).1.docs.lookup rid
        = acc.1.docs.lookup rid := by
  induction cs with
  | nil =>
    intro acc rid _
    rfl
  | cons c cs ih =>
    intro acc rid hrid
    rw [List.foldl_cons]
    rcases processCard_shape name acc c with he | ⟨rid', body, hA, hne', hseen', hP, he⟩
    · rw [he]
      exact ih acc rid hrid
    · rw [he]
      have hne_r : rid ≠ rid' := fun hc => hseen' (hc ▸ hrid)
      exact (ih _ rid (by simp [hrid])).trans
        (lookup_concat_ne _ _ _ _ hne_r)

theorem foldl_lookup_unseen (name : String) (cs : List Card) :
    ∀ (acc : ScrollState × Nat) (rid : String), WfScroll acc.1 →
      rid ∉ acc.1.seen →
      (cs.foldl (processCard name) acc).1.docs.lookup rid
        = (cs.find? (goodCard rid)).map
            (fun c => (⟨rid, name, bodyOf c⟩ : RawReview)) := by
  induction cs with
  | nil =>
    intro acc rid hWf hseen
    simp only [List.foldl_nil, List.find?_nil, Option.map_none']
    exact (lookup_none_iff _ _).mpr (by rw [← hWf.1]; exact hseen)
  | cons c cs ih =>
    intro acc rid hWf hseen
    rw [List.foldl_cons]
    by_cases hg : goodCard rid c = true
    · obtain ⟨body, hA, hne, hP⟩ := goodCard_iff.mp hg
      rw [List.find?_cons_of_pos _ hg]
      have he := processCard_insert' name acc c rid body hA hne hseen hP
      rw [he]
      have hmem : rid ∈ ({ acc.1 with
          docs := acc.1.docs ++ [(rid, ⟨rid, name, body⟩)],
          seen := acc.1.seen ++ [rid],
          trace := acc.1.trace
            ++ [progressPct (acc.1.docs.length + 1)] } : ScrollState).seen := by
        simp
      rw [foldl_lookup_seen name cs _ rid hmem]
      have hkeys : rid ∉ acc.1.docs.map Prod.fst := by
        rw [← hWf.1]
        exact hseen
      simp only [lookup_concat_self acc.1.docs rid _ hkeys, Option.map_some',
        bodyOf, hP]
    · rw [List.find?_cons_of_neg _ hg]
      rcases processCard_shape name acc c with he | ⟨rid', body, hA, hne', hseen', hP, he⟩
      · rw [he]
        exact ih acc rid hWf hseen
      · rw [he]
        have hne_r : rid' ≠ rid := by
          intro hc
          subst hc
          exact hg (goodCard_iff.mpr ⟨body, hA, hne', hP⟩)
        apply ih
        · have hw := processCard_wf name acc c hWf
          rwa [he] at hw
        · intro hmem
          simp only [List.mem_append, List.mem_singleton] at hmem
          rcases hmem with h | h
          · exact hseen h
          · exact hne_r h.symm

/-! ## Idle passes and termination -/

theorem parseOk_false {c : Card} (h : parseOk c = false) :
    c.parseBody = .error () := by
  rcases hP : c.parseBody with e | b
  · cases e
    rfl
  · rw [parseOk, hP] at h
    cases h

theorem processCard_idle_noop (name : String) (acc : ScrollState × Nat)
    (c : Card) (h : isIdleCard acc.1.seen c = true) :
    processCard name acc c = acc := by
  rcases hA : c.attrId with e | o
  · simp [processCard, hA]
  · rcases o with _ | rid
    · simp [processCard, hA]
    · simp only [isIdleCard, hA, Bool.or_eq_true, decide_eq_true_eq,
        Bool.not_eq_true'] at h
      rcases h with (h | h) | h
      · simp [processCard, hA, h]
      · simp [processCard, hA, h]
      · exact processCard_stale name acc c (Or.inr (parseOk_false h))

theorem foldl_idle_noop (name : String) (cards : List Card) :
    ∀ acc : ScrollState × Nat,
      (∀ c ∈ cards, isIdleCard acc.1.seen c = true) →
      cards.foldl (processCard name) acc = acc := by
  induction cards with
  | nil =>
    intro acc _
    rfl
  | cons c cs ih =>
    intro acc h
    rw [List.foldl_cons,
      processCard_idle_noop name acc c (h c (List.mem_cons_self _ _))]
    exact ih acc (fun d hd => h d (List.mem_cons_of_mem _ hd))

/-- **C4.** The scroll/extract loop stops exactly when the idle counter
reaches 5: a pass that discovers zero new identifiers increments the
counter, a pass that discovers at least one resets it to zero, and from
a fresh counter a panel whose scrolling never yields a new identifier is
scanned for exactly 5 idle passes before the loop stops (for any fuel
bound at least 5 — i.e. the `while` loop would do exactly those 5
passes). -/
theorem c4_idle_termination :
    (∀ (name : String) (cards : List Card) (s : ScrollState),
        (processPass name cards s).idle
          = if newInPass name cards s = 0 then s.idle + 1 else 0)
    ∧ (∀ (name : String) (env : Nat → List Card) (s : ScrollState)
        (fuel : Nat),
        s.idle = 0 → (∀ k c, c ∈ env k → isIdleCard s.seen c = true) →
        5 ≤ fuel →
        scroll_and_extract name env fuel s
          = { s with idle := 5, passes := s.passes + 5 }) := by
  constructor
  · intro name cards s
    rfl
  · intro name env s fuel h0 hcards hfuel
    have aux : ∀ (m : Nat) (s' : ScrollState) (fuel' : Nat), m ≤ 5 →
        s'.idle = 5 - m → s'.seen = s.seen → m ≤ fuel' →
        scroll_and_extract name env fuel' s'
          = { s' with idle := 5, passes := s'.passes + m } := by
      intro m
      induction m with
      | zero =>
        intro s' fuel' _ hidle _ _
        have h5 : ¬ s'.idle < 5 := by omega
        have heq : ({ s' with idle := 5, passes := s'.passes + 0 } : ScrollState)
            = s' := by
          rcases s' with ⟨d, se, tr, i, p⟩
          simp only [Nat.sub_zero] at hidle
          simp [hidle]
        cases fuel' with
        | zero => exact heq.symm
        | succ f =>
          simp only [scroll_and_extract, if_neg h5]
          exact heq.symm
      | succ m ihm =>
        intro s' fuel' hm hidle hseen hfuel'
        have hlt : s'.idle < 5 := by omega
        cases fuel' with
        | zero => omega
        | succ f =>
          simp only [scroll_and_extract, if_pos hlt]
          have hfold : (env s'.passes).foldl (processCard name) (s', 0)
              = (s', 0) := by
            refine foldl_idle_noop name _ (s', 0) (fun c hc => ?_)
            have : (s', 0).1.seen = s.seen := hseen
            rw [this]
            exact hcards _ c hc
          have hpass : processPass name (env s'.passes) s'
              = { s' with idle := s'.idle + 1, passes := s'.passes + 1 } := by
            simp [processPass, hfold]
          rw [hpass]
          have hstep := ihm { s' with idle := s'.idle + 1, passes := s'.passes + 1 }
            f (by omega) (by simp; omega) (by simpa using hseen) (by omega)
          rw [hstep]
          have harith : s'.passes + 1 + m = s'.passes + (m + 1) := by omega
          simp only [harith]
    have := aux 5 s fuel (le_refl 5) (by omega) rfl hfuel
    exact this

theorem c4_idle_termination_witness :
    (processPass "N" [] initScroll).idle
      = (if newInPass "N" [] initScroll = 0 then initScroll.idle + 1 else 0)
    ∧ scroll_and_extract "N" (fun _ => []) 5 initScroll
        = { initScroll with idle := 5, passes := initScroll.passes + 5 } :=
  ⟨c4_idle_termination.1 "N" [] initScroll,
   c4_idle_termination.2 "N" (fun _ => []) initScroll 5 rfl
     (fun _ c hc => absurd hc (List.not_mem_nil c)) (le_refl 5)⟩

/-! ## Loop-level lemmas -/

theorem find?_append (l1 l2 : List Card) (p : Card → Bool) :
    (l1 ++ l2).find? p = ((l1.find? p).orElse (fun _ => l2.find? p)) := by
  induction l1 with
  | nil => simp
  | cons a l ih =>
    by_cases h : p a = true
    · simp [List.find?_cons_of_pos _ h]
    · simp [List.cons_append, List.find?_cons_of_neg _ h, ih]

theorem processPass_wf (name : String) (cards : List Card) (s : ScrollState)
    (h : WfScroll s) : WfScroll (processPass name cards s) :=
  foldl_processCard_wf name cards (s, 0) h

theorem scroll_wf (name : String) (env : Nat → List Card) :
    ∀ (fuel : Nat) (s : ScrollState), WfScroll s →
      WfScroll (scroll_and_extract name env fuel s) := by
  intro fuel
  induction fuel with
  | zero => exact fun s h => h
  | succ f ih =>
    intro s h
    by_cases hidle : s.idle < 5
    · simp only [scroll_and_extract, if_pos hidle]
      exact ih _ (processPass_wf name _ s h)
    · simp only [scroll_and_extract, if_neg hidle]
      exact h

theorem scroll_lookup_seen (name : String) (env : Nat → List Card) :
    ∀ (fuel : Nat) (s : ScrollState) (rid : String), rid ∈ s.seen →
      (scroll_and_extract name env fuel s).docs.lookup rid
        = s.docs.lookup rid := by
  intro fuel
  induction fuel with
  | zero =>
    intro s rid _
    rfl
  | succ f ih =>
    intro s rid h
    by_cases hidle : s.idle < 5
    · simp only [scroll_and_extract, if_pos hidle]
      have hmem : rid ∈ (processPass name (env s.passes) s).seen := by
        obtain ⟨t, ht⟩ :=
          (foldl_processCard_frame name (env s.passes) (s, 0)).2.2
        show rid ∈ ((env s.passes).foldl (processCard name) (s, 0)).1.seen
        rw [ht]
        exact List.mem_append_left _ h
      rw [ih _ rid hmem]
      exact foldl_lookup_seen name (env s.passes) (s, 0) rid h
    · simp only [scroll_and_extract, if_neg hidle]

theorem scroll_lookup_unseen (name : String) (env : Nat → List Card) :
    ∀ (fuel : Nat) (s : ScrollState) (rid : String), WfScroll s →
      rid ∉ s.seen →
      (scroll_and_extract name env fuel s).docs.lookup rid
        = ((passStream name env fuel s).find? (goodCard rid)).map
            (fun c => (⟨rid, name, bodyOf c⟩ : RawReview)) := by
  intro fuel
  induction fuel with
  | zero =>
    intro s rid hWf hseen
    simp only [scroll_and_extract, passStream, List.find?_nil,
      Option.map_none']
    exact (lookup_none_iff _ _).mpr (by rw [← hWf.1]; exact hseen)
  | succ f ih =>
    intro s rid hWf hseen
    by_cases hidle : s.idle < 5
    · simp only [scroll_and_extract, passStream, if_pos hidle]
      rw [find?_append]
      have hfold := foldl_lookup_unseen name (env s.passes) (s, 0) rid hWf hseen
      have hWf' : WfScroll (processPass name (env s.passes) s) :=
        processPass_wf name _ s hWf
      cases hfind : (env s.passes).find? (goodCard rid) with
      | some c =>
        have hlk : (processPass name (env s.passes) s).docs.lookup rid
            = some ⟨rid, name, bodyOf c⟩ := by
          show ((env s.passes).foldl (processCard name) (s, 0)).1.docs.lookup rid
            = _
          rw [hfold, hfind]
          rfl
        have hmem : rid ∈ (processPass name (env s.passes) s).seen := by
          rw [hWf'.1]
          by_contra hnm
          rw [(lookup_none_iff _ _).mpr hnm] at hlk
          cases hlk
        rw [scroll_lookup_seen name env f _ rid hmem, hlk]
        rfl
      | none =>
        have hnone : (processPass name (env s.passes) s).docs.lookup rid
            = none := by
          show ((env s.passes).foldl (processCard name) (s, 0)).1.docs.lookup rid
            = _
          rw [hfold, hfind]
          rfl
        have hseen' : rid ∉ (processPass name (env s.passes) s).seen := by
          rw [hWf'.1]
          exact (lookup_none_iff _ _).mp hnone
        rw [ih _ rid hWf' hseen']
        rfl
    · simp only [scroll_and_extract, passStream, if_neg hidle,
        List.find?_nil, Option.map_none']
      exact (lookup_none_iff _ _).mpr (by rw [← hWf.1]; exact hseen)

/-- **C1.** For every run of the scroll/extract loop from a valid state:
the `seen` set always equals the result map's key list (a card's id is
added to both atomically, in the same `try` block, with nothing fallible
in between); the map has at most one record per id; the binding of an
already-seen id is never changed by further processing (a later card
with that id is ignored, not merged); the record an unseen id ends up
with is the one parsed from the *first* card of the processed stream
whose id read yields that id and whose parse succeeds; and a card whose
id read or parse raises staleness leaves the whole accumulator (map,
`seen`, trace, counter) unchanged, since insertion only happens after a
fully successful parse. -/
theorem c1_scroll_dedupe (name : String) (env : Nat → List Card)
    (fuel : Nat) (s : ScrollState)
    (hkeys : s.seen = s.docs.map Prod.fst) (hnd : s.seen.Nodup) :
    ((scroll_and_extract name env fuel s).seen
        = (scroll_and_extract name env fuel s).docs.map Prod.fst
      ∧ ((scroll_and_extract name env fuel s).docs.map Prod.fst).Nodup)
    ∧ (∀ rid, rid ∈ s.seen →
        (scroll_and_extract name env fuel s).docs.lookup rid
          = s.docs.lookup rid)
    ∧ (∀ rid, rid ∉ s.seen →
        (scroll_and_extract name env fuel s).docs.lookup rid
          = ((passStream name env fuel s).find? (goodCard rid)).map
              (fun c => (⟨rid, name, bodyOf c⟩ : RawReview)))
    ∧ (∀ (acc : ScrollState × Nat) (c : Card),
        c.attrId = .error () ∨ c.parseBody = .error () →
        processCard name acc c = acc) := by
  have hWf' := scroll_wf name env fuel s ⟨hkeys, hnd⟩
  exact ⟨⟨hWf'.1, hWf'.1 ▸ hWf'.2⟩,
    fun rid h => scroll_lookup_seen name env fuel s rid h,
    fun rid h => scroll_lookup_unseen name env fuel s rid ⟨hkeys, hnd⟩ h,
    fun acc c h => processCard_stale name acc c h⟩

/-- Concrete cards for the C1 witness: a first capture of id `A`, a
stale re-render of `A` with different content, and a card whose parse
raises staleness before insertion. -/
def c1CardA : Card := ⟨.ok (some "A"), .ok "first"⟩

def c1CardA2 : Card := ⟨.ok (some "A"), .ok "second"⟩

def c1CardB : Card := ⟨.ok (some "B"), .error ()⟩

def c1Env : Nat → List Card := fun k =>
  if k = 0 then [c1CardA, c1CardA2, c1CardB] else []

theorem c1_scroll_dedupe_witness :
    ((scroll_and_extract "Acme" c1Env 12 initScroll).seen
        = (scroll_and_extract "Acme" c1Env 12 initScroll).docs.map Prod.fst)
    ∧ (scroll_and_extract "Acme" c1Env 12 initScroll).docs.lookup "A"
        = some ⟨"A", "Acme", "first"⟩
    ∧ (scroll_and_extract "Acme" c1Env 12 initScroll).docs.lookup "B" = none
    ∧ processCard "Acme" (initScroll, 0) c1CardB = (initScroll, 0) :=
  ⟨(c1_scroll_dedupe "Acme" c1Env 12 initScroll rfl List.nodup_nil).1.1,
   ((c1_scroll_dedupe "Acme" c1Env 12 initScroll rfl List.nodup_nil).2.2.1
      "A" (by decide)).trans (by decide),
   ((c1_scroll_dedupe "Acme" c1Env 12 initScroll rfl List.nodup_nil).2.2.1
      "B" (by decide)).trans (by decide),
   (c1_scroll_dedupe "Acme" c1Env 12 initScroll rfl List.nodup_nil).2.2.2
      (initScroll, 0) c1CardB (Or.inr rfl)⟩

/-! ## Monotone progress -/

/-- Invariant for the progress-write trace: it is non-decreasing, and
every recorded value sits between 60 and the percentage for the current
found-count. -/
def TraceOk (s : ScrollState) : Prop :=
  List.Chain' (· ≤ ·) s.trace
    ∧ ∀ x ∈ s.trace, 60 ≤ x ∧ x ≤ progressPct s.docs.length

theorem processCard_traceOk (name : String) (acc : ScrollState × Nat)
    (c : Card) (h : TraceOk acc.1) : TraceOk (processCard name acc c).1 := by
  rcases processCard_shape name acc c with he | ⟨rid, body, hA, hne, hseen, hP, he⟩
  · rw [he]
    exact h
  · rw [he]
    constructor
    · rw [List.chain'_append]
      refine ⟨h.1, List.chain'_singleton _, ?_⟩
      intro x hx y hy
      simp only [List.head?_cons, Option.mem_def, Option.some.injEq] at hy
      subst hy
      exact le_trans (h.2 x (List.mem_of_mem_getLast? hx)).2
        (progressPct_mono (Nat.le_succ _))
    · intro x hx
      rcases List.mem_append.mp hx with hx | hx
      · refine ⟨(h.2 x hx).1, ?_⟩
        refine le_trans (h.2 x hx).2 (progressPct_mono ?_)
        simp
      · simp only [List.mem_singleton] at hx
        subst hx
        refine ⟨le_progressPct _, progressPct_mono ?_⟩
        simp

theorem foldl_traceOk (name : String) (cs : List Card) :
    ∀ acc : ScrollState × Nat, TraceOk acc.1 →
      TraceOk (cs.foldl (processCard name) acc).1 := by
  induction cs with
  | nil => exact fun acc h => h
  | cons c cs ih =>
    intro acc h
    rw [List.foldl_cons]
    exact ih _ (processCard_traceOk name acc c h)

theorem processPass_traceOk (name : String) (cards : List Card)
    (s : ScrollState) (h : TraceOk s) :
    TraceOk (processPass name cards s) :=
  foldl_traceOk name cards (s, 0) h

theorem scroll_traceOk (name : String) (env : Nat → List Card) :
    ∀ (fuel : Nat) (s : ScrollState), TraceOk s →
      TraceOk (scroll_and_extract name env fuel s) := by
  intro fuel
  induction fuel with
  | zero => exact fun s h => h
  | succ f ih =>
    intro s h
    by_cases hidle : s.idle < 5
    · simp only [scroll_and_extract, if_pos hidle]
      exact ih _ (processPass_traceOk name _ s h)
    · simp only [scroll_and_extract, if_neg hidle]
      exact h

/-- **C5.** Within one extraction attempt the percentages written to the
progress sink — 15 at navigation, 25 and (when a selector matches) 40
during company-name discovery, 45 and (on success) 60 around the
reviews-tab click, then the found-count writes of the scroll loop — form
a monotonically non-decreasing sequence, whatever the panel serves. -/
theorem c5_monotonic_progress (nameFound clickOk : Bool) (name : String)
    (env : Nat → List Card) (fuel : Nat) :
    List.Chain' (· ≤ ·) (attemptTrace nameFound clickOk name env fuel) := by
  have hT : TraceOk (scroll_and_extract name env fuel initScroll) :=
    scroll_traceOk name env fuel initScroll
      ⟨List.chain'_nil, by simp [initScroll]⟩
  have hchain : List.Chain' (· ≤ ·)
      (60 :: (scroll_and_extract name env fuel initScroll).trace) := by
    rw [List.chain'_cons']
    exact ⟨fun y hy => (hT.2 y (List.mem_of_mem_head? hy)).1, hT.1⟩
  unfold attemptTrace
  cases nameFound <;> cases clickOk
  · show List.Chain' (· ≤ ·) [15, 25, 45]
    norm_num [List.chain'_cons, List.chain'_singleton]
  · show List.Chain' (· ≤ ·)
      (15 :: 25 :: 45 :: 60 :: (scroll_and_extract name env fuel initScroll).trace)
    rw [List.chain'_cons', List.chain'_cons', List.chain'_cons']
    refine ⟨fun y hy => by simp at hy; omega,
      fun y hy => by simp at hy; omega,
      fun y hy => by simp at hy; omega, hchain⟩
  · show List.Chain' (· ≤ ·) [15, 25, 40, 45]
    norm_num [List.chain'_cons, List.chain'_singleton]
  · show List.Chain' (· ≤ ·)
      (15 :: 25 :: 40 :: 45 :: 60 ::
        (scroll_and_extract name env fuel initScroll).trace)
    rw [List.chain'_cons', List.chain'_cons', List.chain'_cons',
      List.chain'_cons']
    refine ⟨fun y hy => by simp at hy; omega,
      fun y hy => by simp at hy; omega,
      fun y hy => by simp at hy; omega,
      fun y hy => by simp at hy; omega, hchain⟩

end Scraper
